import Mathlib

/-!
Verification of the bluefish `rvfs` core (Redfish virtual filesystem):
a shallow embedding of the parser (`rvfs/parser.go`), the resolver and
VFS facade, the resource cache, and the HTTP client's retry logic,
together with proofs and refutations of the specified properties.

Go maps are modelled as association lists with insert-overwrites
semantics (`AList.insert`), Go byte strings as Lean `String`s (all
relevant comparisons are byte-wise on ASCII data, where the two agree),
and JSON documents as an inductive `Json` tree that stands for the
already-lexed byte payload handed to `jsonparser`; object fields keep
document order and may repeat, as raw JSON allows.
-/

set_option autoImplicit false

namespace Rvfs

/-! ## String helpers (models of the Go `strings` functions used) -/

/-- Model of Go `strings.HasPrefix s p` as a character-list comparison. -/
def strStarts (s p : String) : Bool :=
  p.toList.isPrefixOf s.toList

/-- Model of Go `strings.HasSuffix s p` as a character-list comparison. -/
def strEnds (s p : String) : Bool :=
  p.toList.reverse.isPrefixOf s.toList.reverse

/-- Model of Go `strings.TrimRight s "/"`: drop every trailing slash. -/
def trimTrailingSlashes (s : String) : String :=
  String.mk ((s.toList.reverse.dropWhile (fun c => c = '/')).reverse)

/-- Model of Go `strings.TrimPrefix s p`: drop `p` when it is a prefix. -/
def trimPrefixStr (s p : String) : String :=
  if strStarts s p then String.mk (s.toList.drop p.toList.length) else s

/-- Model of Go `strings.Split s "/"`: split at every slash, keeping empty
pieces, with the accumulator holding the current piece reversed. -/
def splitSlashAux : List Char → List Char → List String
  | [], acc => [String.mk acc.reverse]
  | c :: rest, acc =>
    if c = '/' then String.mk acc.reverse :: splitSlashAux rest []
    else splitSlashAux rest (c :: acc)

/-- Model of Go `strings.Split s "/"`. -/
def splitSlash (s : String) : List String :=
  splitSlashAux s.toList []

/-- Model of Go `strings.Index s "["`: index of the first `[`, if any. -/
def indexOfLBracket (cs : List Char) : Option Nat :=
  cs.findIdx? (fun c => c = '[')

/-! ## Association lists (models of Go maps, preserving insertion order) -/

/-- Overwrite-or-append insertion, the model of a Go map assignment
`m[k] = v`. -/
def AList.insert {α : Type} (m : List (String × α)) (k : String) (v : α) :
    List (String × α) :=
  match m with
  | [] => [(k, v)]
  | (k₀, v₀) :: rest =>
    if k₀ = k then (k, v) :: rest else (k₀, v₀) :: AList.insert rest k v

/-- Lookup, the model of a Go map read `m[k]`. -/
def AList.lookup {α : Type} (m : List (String × α)) (k : String) : Option α :=
  match m with
  | [] => none
  | (k₀, v₀) :: rest => if k₀ = k then some v₀ else AList.lookup rest k

/-- Deletion, the model of Go `delete(m, k)`. -/
def AList.erase {α : Type} (m : List (String × α)) (k : String) :
    List (String × α) :=
  match m with
  | [] => []
  | (k₀, v₀) :: rest =>
    if k₀ = k then rest else (k₀, v₀) :: AList.erase rest k

/-- Key set of the modelled map. -/
def AList.keys {α : Type} (m : List (String × α)) : List String :=
  m.map Prod.fst

theorem AList.lookup_insert {α : Type} (m : List (String × α)) (k : String)
    (v : α) : AList.lookup (AList.insert m k v) k = some v := by
  induction m with
  | nil => simp [AList.insert, AList.lookup]
  | cons hd tl ih =>
    obtain ⟨k₀, v₀⟩ := hd
    by_cases h : k₀ = k <;> simp [AList.insert, AList.lookup, h, ih]

@[simp] theorem AList.keys_nil {α : Type} :
    AList.keys ([] : List (String × α)) = [] := rfl

@[simp] theorem AList.keys_cons {α : Type} (k : String) (v : α)
    (tl : List (String × α)) :
    AList.keys ((k, v) :: tl) = k :: AList.keys tl := rfl

theorem AList.lookup_eq_none {α : Type} (m : List (String × α)) (k : String)
    (hk : k ∉ AList.keys m) : AList.lookup m k = none := by
  induction m with
  | nil => simp [AList.lookup]
  | cons hd tl ih =>
    obtain ⟨k₀, v₀⟩ := hd
    simp only [AList.keys_cons, List.mem_cons, not_or] at hk
    have h : ¬ k₀ = k := fun h => hk.1 h.symm
    simp only [AList.lookup, if_neg h]
    exact ih hk.2

theorem AList.not_mem_keys_erase {α : Type} (m : List (String × α)) (k : String)
    (hm : (AList.keys m).Nodup) : k ∉ AList.keys (AList.erase m k) := by
  induction m with
  | nil => simp [AList.erase, AList.keys]
  | cons hd tl ih =>
    obtain ⟨k₀, v₀⟩ := hd
    simp only [AList.keys_cons, List.nodup_cons] at hm
    by_cases h : k₀ = k
    · subst h
      simpa [AList.erase] using hm.1
    · simp only [AList.erase, if_neg h, AList.keys_cons, List.mem_cons, not_or]
      exact ⟨fun hk => h hk.symm, ih hm.2⟩

theorem AList.lookup_erase {α : Type} (m : List (String × α)) (k : String)
    (hm : (AList.keys m).Nodup) :
    AList.lookup (AList.erase m k) k = none :=
  AList.lookup_eq_none _ _ (AList.not_mem_keys_erase m k hm)

theorem AList.mem_keys_insert {α : Type} (m : List (String × α)) (k k₀ : String)
    (v : α) :
    k₀ ∈ AList.keys (AList.insert m k v) ↔ k₀ ∈ AList.keys m ∨ k₀ = k := by
  induction m with
  | nil => simp [AList.insert, AList.keys]
  | cons hd tl ih =>
    obtain ⟨k₁, v₁⟩ := hd
    by_cases h : k₁ = k
    · subst h
      simp [AList.insert, List.mem_cons]
      tauto
    · simp only [AList.insert, if_neg h, AList.keys_cons, List.mem_cons]
      rw [ih]
      tauto

/-! ## Path normalization (`normalizePath`, rvfs/parser.go) -/

/-- Model of `normalizePath` (rvfs/parser.go): empty becomes the Redfish
root, a missing leading slash is prepended, trailing slashes are stripped
by `strings.TrimRight(path, "/")`. -/
def normalizePath (path : String) : String :=
  if path = "" then "/redfish/v1"
  else
    let path := if path.toList.head? ≠ some '/' then "/" ++ path else path
    trimTrailingSlashes path

/-! ## Data model (rvfs/types.go) -/

/-- JSON document tree, standing for the raw bytes handed to `jsonparser`:
object fields keep document order and may repeat, numbers keep their
literal text (no claim inspects numeric values). -/
inductive Json : Type where
  | str (s : String)
  | num (lit : String)
  | boolean (b : Bool)
  | null
  | arr (elems : List Json)
  | obj (fields : List (String × Json))

/-- Decoded scalar stored in a `PropertySimple` (`Property.Value` in Go). -/
inductive GoValue : Type where
  | str (s : String)
  | num (lit : String)
  | boolean (b : Bool)
  | null
deriving DecidableEq

/-- Model of `PropertyType` (rvfs/types.go). -/
inductive PropertyType : Type where
  | simple
  | object
  | array
  | link
deriving DecidableEq

/-- Model of `Property` (rvfs/types.go); `children` and `elements` use the
association-list map model. `RawJSON` is omitted: no claim depends on the
retained byte slice. -/
inductive Property : Type where
  | mk (name : String) (ptype : PropertyType) (value : Option GoValue)
       (linkTarget : String) (children : List (String × Property))
       (elements : List Property)

/-- Field name of a property. -/
def Property.name : Property → String
  | .mk n _ _ _ _ _ => n

/-- Kind tag of a property. -/
def Property.ptype : Property → PropertyType
  | .mk _ t _ _ _ _ => t

/-- Decoded scalar of a `simple` property. -/
def Property.value : Property → Option GoValue
  | .mk _ _ v _ _ _ => v

/-- Link URL of a `link` property. -/
def Property.linkTarget : Property → String
  | .mk _ _ _ l _ _ => l

/-- Nested fields of an `object` property. -/
def Property.children : Property → List (String × Property)
  | .mk _ _ _ _ c _ => c

/-- Items of an `array` property. -/
def Property.elements : Property → List Property
  | .mk _ _ _ _ _ e => e

/-- Model of `ChildType` (rvfs/types.go). -/
inductive ChildType : Type where
  | link
  | symlink
deriving DecidableEq

/-- Model of `Child` (rvfs/types.go). -/
structure Child : Type where
  name : String
  ctype : ChildType
  target : String
  parent : String

/-- Model of `Resource` (rvfs/types.go); `RawJSON` is kept as the `Json`
document and `FetchedAt` is omitted (wall-clock time is outside the
embedding and no claim mentions it). -/
structure Resource : Type where
  path : String
  odataID : String
  odataType : String
  rawJSON : Json
  properties : List (String × Property)
  children : List (String × Child)

/-- Model of `TargetType` (rvfs/types.go). -/
inductive TargetType : Type where
  | resource
  | property
  | link
deriving DecidableEq

/-- Model of `Target` (rvfs/types.go); the Go pointer fields become
options. -/
structure Target : Type where
  ttype : TargetType
  resource : Option Resource
  property : Option Property
  resourcePath : String

/-- Error values surfaced by the embedded operations (rvfs/types.go plus
the resolver's `fmt.Errorf` cases). `sliceOutOfRange` is not a returned
Go error: it marks the run aborting in a Go runtime out-of-range slice
access (a crash), see `navigatePropertySegment`. -/
inductive RErr : Type where
  | notFound (path : String)
  | notCached (path : String)
  | network (path : String)
  | httpErr (path : String) (status : Nat)
  | parseErr (path : String)
  | invalidPath (path : String)
  | notAnArray (name : String)
  | indexOutOfBounds (index : Int)
  | cannotNavigate (seg : String)
  | sliceOutOfRange (index : Int)
deriving DecidableEq

/-! ## Parser (rvfs/parser.go) -/

/-- Model of `jsonparser.GetString(data, key)` collapsed to the Go caller
convention: the empty string when the key is missing or its value is not
a string (every call site treats error and `""` alike or guards with
`err == nil`). -/
def getString (fields : List (String × Json)) (key : String) : String :=
  match fields.find? (fun kv => kv.fst = key) with
  | some (_, .str s) => s
  | _ => ""

/-- Model of `jsonparser.GetString` succeeding: `some` exactly when the
key is present with a string value (first occurrence). -/
def getStringOpt (fields : List (String × Json)) (key : String) :
    Option String :=
  match fields.find? (fun kv => kv.fst = key) with
  | some (_, .str s) => some s
  | _ => none

/-- Model of `Parser.isURIProperty`: name ends in `Uri`/`URI`, or is
`@Redfish.ActionInfo`, or is `target`. -/
def isURIProperty (name : String) : Bool :=
  if strEnds name "Uri" || strEnds name "URI" then true
  else if name = "@Redfish.ActionInfo" then true
  else if name = "target" then true
  else false

/-- Model of `Parser.isLinkOnly`: the object must carry a non-empty
`@odata.id` and every key must begin with `@odata.`. -/
def isLinkOnly (fields : List (String × Json)) : Bool :=
  if getString fields "@odata.id" = "" then false
  else fields.all (fun kv => strStarts kv.fst "@odata.")

/-- Model of `Parser.isLinkArray`: a non-empty array whose every element
is a link-only object. -/
def isLinkArray : Json → Bool
  | .arr elems =>
    decide (0 < elems.length) &&
      elems.all (fun e =>
        match e with
        | .obj fs => isLinkOnly fs
        | _ => false)
  | _ => false

/-- Model of `Parser.extractODataID` on an object value. -/
def extractODataID (fields : List (String × Json)) : String :=
  getString fields "@odata.id"

/-- Modelled from the spec: the path utility `BaseName` is code of this
repository that is not under src (only its caller `extractNameFromPath`
is); per the spec a Members child name is derived as "the URL's last
segment". -/
def BaseName (p : String) : String :=
  (((splitSlash p).filter (fun s => s ≠ "")).getLast?).getD ""

/-- Model of `Parser.extractNameFromPath`. -/
def extractNameFromPath (linkPath : String) : String :=
  BaseName linkPath

/-- Model of `Parser.classifyLink`: in-subtree targets are `link`,
everything else `symlink`, after stripping trailing slashes. -/
def classifyLink (parentPath targetPath : String) : ChildType :=
  let parent := trimTrailingSlashes parentPath
  let target := trimTrailingSlashes targetPath
  if target = parent || strStarts target (parent ++ "/") then ChildType.link
  else ChildType.symlink

/-- Model of `Parser.parseValue` on the scalar cases reached from
`parseProperty` (strings, numbers, booleans, null). -/
def parseValue : Json → GoValue
  | .str s => GoValue.str s
  | .num lit => GoValue.num lit
  | .boolean b => GoValue.boolean b
  | _ => GoValue.null

mutual

/-- Model of `Parser.parseProperty` (rvfs/parser.go): link-only objects
become `link` properties, other objects recurse into non-`@odata.`
children, arrays recurse elementwise with `[i]` names, strings become
`link` when `isURIProperty` holds and the value starts with `/`, and all
other scalars are `simple`. -/
def parseProperty (name : String) : Json → Property
  | .obj fields =>
    if isLinkOnly fields then
      Property.mk name PropertyType.link none (getString fields "@odata.id")
        [] []
    else
      Property.mk name PropertyType.object none "" (parseObjFields [] fields)
        []
  | .arr elems =>
    Property.mk name PropertyType.array none "" [] (parseElements 0 elems)
  | .str s =>
    if isURIProperty name && strStarts s "/" then
      Property.mk name PropertyType.link none s [] []
    else
      Property.mk name PropertyType.simple (some (GoValue.str s)) "" [] []
  | .num lit =>
    Property.mk name PropertyType.simple (some (GoValue.num lit)) "" [] []
  | .boolean b =>
    Property.mk name PropertyType.simple (some (GoValue.boolean b)) "" [] []
  | .null =>
    Property.mk name PropertyType.simple (some GoValue.null) "" [] []

/-- Model of the `jsonparser.ObjectEach` body inside `parseProperty`'s
object case: skip `@odata.`-prefixed keys, insert the rest in document
order. -/
def parseObjFields (acc : List (String × Property)) :
    List (String × Json) → List (String × Property)
  | [] => acc
  | (k, v) :: rest =>
    if strStarts k "@odata." then parseObjFields acc rest
    else parseObjFields (AList.insert acc k (parseProperty k v)) rest

/-- Model of the `jsonparser.ArrayEach` body inside `parseProperty`'s
array case: elements named `[i]` in order. -/
def parseElements (idx : Nat) : List Json → List Property
  | [] => []
  | v :: rest =>
    parseProperty ("[" ++ toString idx ++ "]") v :: parseElements (idx + 1) rest

end

/-- Model of `Parser.extractLinkArrayChildren`: for each object element
with a non-empty `@odata.id`, insert a child named by the URL's last
segment (when non-empty). -/
def extractLinkArrayChildren (parentPath : String)
    (children : List (String × Child)) : List Json → List (String × Child)
  | [] => children
  | e :: rest =>
    match e with
    | .obj fs =>
      let linkPath := extractODataID fs
      if linkPath = "" then extractLinkArrayChildren parentPath children rest
      else
        let name := extractNameFromPath linkPath
        if name = "" then extractLinkArrayChildren parentPath children rest
        else
          extractLinkArrayChildren parentPath
            (AList.insert children name
              (Child.mk name (classifyLink parentPath linkPath) linkPath
                parentPath)) rest
    | _ => extractLinkArrayChildren parentPath children rest

/-- Model of the `jsonparser.ObjectEach` body of `Parser.Parse`: each
top-level key is skipped (`@odata.`), made a child (link-only object),
expanded into children (`Members` link array), or parsed as a property. -/
def parseTop (path : String) (children : List (String × Child))
    (properties : List (String × Property)) :
    List (String × Json) → List (String × Child) × List (String × Property)
  | [] => (children, properties)
  | (k, v) :: rest =>
    if strStarts k "@odata." then parseTop path children properties rest
    else
      match v with
      | .obj fs =>
        if isLinkOnly fs then
          let linkPath := extractODataID fs
          parseTop path
            (AList.insert children k
              (Child.mk k (classifyLink path linkPath) linkPath path))
            properties rest
        else
          parseTop path children
            (AList.insert properties k (parseProperty k v)) rest
      | .arr elems =>
        if k = "Members" && isLinkArray (.arr elems) then
          parseTop path (extractLinkArrayChildren path children elems)
            properties rest
        else
          parseTop path children
            (AList.insert properties k (parseProperty k v)) rest
      | _ =>
        parseTop path children
          (AList.insert properties k (parseProperty k v)) rest

/-- Model of `Parser.Parse` (rvfs/parser.go): a non-object document makes
`jsonparser.ObjectEach` fail, surfacing a `ParseError`; otherwise the
resource is built with normalized path, the `@odata.id` / `@odata.type`
strings, and the classified children and properties. -/
def Parse (path : String) (data : Json) : Except RErr Resource :=
  match data with
  | .obj fields =>
    let maps := parseTop path [] [] fields
    Except.ok
      { path := normalizePath path
        odataID := (getStringOpt fields "@odata.id").getD ""
        odataType := (getStringOpt fields "@odata.type").getD ""
        rawJSON := Json.obj fields
        properties := maps.2
        children := maps.1 }
  | _ => Except.error (RErr.parseErr path)

/-! ## Resolver (vfs: ResolveTarget / resolveAbsolute / resolveRelative /
navigatePropertySegment) -/

/-- Redfish root constant (`RedfishRoot`). -/
def RedfishRoot : String := "/redfish/v1"

/-- Value scanned by `fmt.Sscanf(indexStr, "%d", &index)` with `index`
initialized to `0` and the error ignored, as the Go code does: an
optional sign followed by the longest leading digit run; when no digit
is found the scan fails and the variable keeps its initial `0`
(leading-space skipping is omitted: no claim involves whitespace). -/
def sscanfInt (s : String) : Int :=
  let digits := fun (cs : List Char) =>
    ((cs.takeWhile (fun c => c.isDigit)).foldl
      (fun n c => n * 10 + (c.toNat - 48)) 0,
     decide ((cs.takeWhile (fun c => c.isDigit)).length > 0))
  match s.toList with
  | '-' :: rest =>
    let r := digits rest
    if r.2 then -(Int.ofNat r.1) else 0
  | '+' :: rest =>
    let r := digits rest
    if r.2 then Int.ofNat r.1 else 0
  | cs =>
    let r := digits cs
    if r.2 then Int.ofNat r.1 else 0

/-- Index into `Elements` as the Go slice expression `prop.Elements[index]`
behaves after the code's sole `index >= len` guard: a non-negative
in-range index reads the element; a negative index is an out-of-range
slice access, i.e. a runtime panic, modelled as `sliceOutOfRange`. -/
def goSliceIndex (elems : List Property) (index : Int) : Except RErr Property :=
  match index with
  | Int.ofNat n =>
    match elems.get? n with
    | some p => Except.ok p
    | none => Except.error (RErr.sliceOutOfRange index)
  | Int.negSucc _ => Except.error (RErr.sliceOutOfRange index)

/-- Model of `vfs.navigatePropertySegment`: on a `[` in the segment,
require a trailing `]`, split at the first `[`, look the name up,
require an array, scan the index with `sscanfInt`, guard only
`index >= len(Elements)`, then index the slice; otherwise a plain map
lookup. -/
def navigatePropertySegment (properties : List (String × Property))
    (segment : String) : Except RErr Property :=
  let cs := segment.toList
  match indexOfLBracket cs with
  | some idx =>
    if cs.getLast? ≠ some ']' then Except.error (RErr.notFound segment)
    else
      let propName := String.mk (cs.take idx)
      let indexStr := String.mk ((cs.drop (idx + 1)).dropLast)
      match AList.lookup properties propName with
      | none => Except.error (RErr.notFound propName)
      | some prop =>
        if prop.ptype ≠ PropertyType.array then
          Except.error (RErr.notAnArray propName)
        else
          let index := sscanfInt indexStr
          if decide (index ≥ (Int.ofNat prop.elements.length)) then
            Except.error (RErr.indexOutOfBounds index)
          else goSliceIndex prop.elements index
  | none =>
    match AList.lookup properties segment with
    | none => Except.error (RErr.notFound segment)
    | some prop => Except.ok prop

/-- Cache environment seen by the resolver: what `cache.Get` answers for
each path (the `cache` interface of the vfs). -/
def CacheEnv : Type := String → Except RErr Resource

/-- Model of the per-segment loop of `vfs.resolveRelative`, threading the
walk state `(currentPath, currentResource, currentProps)` and returning
the resolver outcome together with the ordered list of paths passed to
`cache.Get`. A `none` property map is resource mode; a `some` map is
property mode; the empty-segments case is the Go postlude ("ended on a
resource", reloading when the resource pointer is nil). The local
`propStep` is the property-lookup body shared by the resource-mode
fall-through and property mode; `resStep` is the resource-mode body
(children first). -/
def resolveLoop (env : CacheEnv) :
    String → Option Resource → Option (List (String × Property)) →
    List String → Except RErr Target × List String
  | currentPath, currentResource, _, [] =>
    match currentResource with
    | some res =>
      (Except.ok (Target.mk TargetType.resource (some res) none currentPath),
       [])
    | none =>
      match env currentPath with
      | Except.ok res =>
        (Except.ok (Target.mk TargetType.resource (some res) none currentPath),
         [currentPath])
      | Except.error e => (Except.error e, [currentPath])
  | currentPath, currentResource, currentProps, seg :: rest =>
    let propStep :
        Option Resource → List (String × Property) →
        Except RErr Target × List String :=
      fun ctxRes props =>
        match navigatePropertySegment props seg with
        | Except.error e => (Except.error e, [])
        | Except.ok prop =>
          match rest with
          | [] =>
            if prop.ptype = PropertyType.link then
              (Except.ok
                (Target.mk TargetType.link ctxRes (some prop)
                  prop.linkTarget), [])
            else
              (Except.ok
                (Target.mk TargetType.property ctxRes (some prop) ""), [])
          | _ :: _ =>
            match prop.ptype with
            | PropertyType.link => resolveLoop env prop.linkTarget none none rest
            | PropertyType.object =>
              resolveLoop env currentPath ctxRes (some prop.children) rest
            | _ => (Except.error (RErr.cannotNavigate seg), [])
    let resStep : Resource → Except RErr Target × List String :=
      fun res =>
        match AList.lookup res.children seg with
        | some child => resolveLoop env child.target none none rest
        | none => propStep (some res) res.properties
    match currentProps with
    | some props => propStep currentResource props
    | none =>
      match currentResource with
      | some res => resStep res
      | none =>
        match env currentPath with
        | Except.error e => (Except.error e, [currentPath])
        | Except.ok res =>
          let out := resStep res
          (out.1, currentPath :: out.2)

/-- Model of `vfs.resolveRelative`: filter empty segments out of the
`/`-split target and run the loop in resource mode at the base. -/
def resolveRelative (env : CacheEnv) (basePath targetPath : String) :
    Except RErr Target × List String :=
  resolveLoop env basePath none none
    ((splitSlash targetPath).filter (fun s => s ≠ ""))

/-- Model of `vfs.resolveAbsolute`: require the `/redfish/v1` prefix,
answer the root directly from the cache, otherwise strip the prefix and
resolve relatively. -/
def resolveAbsolute (env : CacheEnv) (path : String) :
    Except RErr Target × List String :=
  if ¬ strStarts path RedfishRoot then
    (Except.error (RErr.invalidPath path), [])
  else if path = RedfishRoot then
    match env RedfishRoot with
    | Except.ok res =>
      (Except.ok (Target.mk TargetType.resource (some res) none RedfishRoot),
       [RedfishRoot])
    | Except.error e => (Except.error e, [RedfishRoot])
  else
    resolveRelative env RedfishRoot (trimPrefixStr path (RedfishRoot ++ "/"))

/-- Model of `vfs.ResolveTarget`: empty target resolves the base itself,
absolute targets resolve from the root, relative targets are joined to
the base with `/`. -/
def ResolveTarget (env : CacheEnv) (basePath targetPath : String) :
    Except RErr Target × List String :=
  if targetPath = "" then resolveAbsolute env basePath
  else if strStarts targetPath "/" then resolveAbsolute env targetPath
  else resolveAbsolute env (basePath ++ "/" ++ targetPath)

/-! ## Cache (ResourceCache) -/

/-- Client dependency of the cache, as the `cache` sees it: raw document
per path, or an error (`Client.Fetch` is modelled separately below; the
cache treats the client as an injected collaborator, exactly as the
repo's `cache` interface does for the vfs). -/
def FetchEnv : Type := String → Except RErr Json

/-- Model of `ResourceCache`: the `path → Resource` store and the offline
flag. The lock, the cache file and the live client pointer carry no
sequential meaning. -/
structure ResourceCache : Type where
  store : List (String × Resource)
  offline : Bool

/-- Model of `ResourceCache.Get`: normalize, hit the store, fail with
`NotCached` offline, otherwise fetch once, parse, insert. The third
component lists the fetch calls issued (by path, in order). -/
def ResourceCache.Get (fetch : FetchEnv) (c : ResourceCache) (path : String) :
    Except RErr Resource × ResourceCache × List String :=
  let path := normalizePath path
  match AList.lookup c.store path with
  | some resource => (Except.ok resource, c, [])
  | none =>
    if c.offline then (Except.error (RErr.notCached path), c, [])
    else
      match fetch path with
      | Except.error e => (Except.error e, c, [path])
      | Except.ok data =>
        match Parse path data with
        | Except.error e => (Except.error e, c, [path])
        | Except.ok resource =>
          (Except.ok resource,
           { c with store := AList.insert c.store path resource }, [path])

/-- Model of `ResourceCache.Put`: store under the resource's own `Path`
field, unnormalized. -/
def ResourceCache.Put (c : ResourceCache) (resource : Resource) :
    ResourceCache :=
  { c with store := AList.insert c.store resource.path resource }

/-- Model of `ResourceCache.Invalidate`: normalize, then delete. -/
def ResourceCache.Invalidate (c : ResourceCache) (path : String) :
    ResourceCache :=
  { c with store := AList.erase c.store (normalizePath path) }

/-- Model of `ResourceCache.Clear`. -/
def ResourceCache.Clear (c : ResourceCache) : ResourceCache :=
  { c with store := [] }

/-- Model of `ResourceCache.GetKnownPaths`. -/
def ResourceCache.GetKnownPaths (c : ResourceCache) : List String :=
  AList.keys c.store

/-- One cache operation of the sequences claim C10 speaks about. -/
inductive CacheOp : Type where
  | get (path : String)
  | put (resource : Resource)
  | invalidate (path : String)
  | clear

/-- State reached by one cache operation (the `Get` result value is
irrelevant to state evolution). -/
def CacheOp.apply (fetch : FetchEnv) (c : ResourceCache) :
    CacheOp → ResourceCache
  | .get path => (ResourceCache.Get fetch c path).2.1
  | .put resource => ResourceCache.Put c resource
  | .invalidate path => ResourceCache.Invalidate c path
  | .clear => ResourceCache.Clear c

/-- State reached by a sequence of cache operations, applied left to
right from the given state. -/
def runCacheOps (fetch : FetchEnv) (c : ResourceCache) :
    List CacheOp → ResourceCache
  | [] => c
  | op :: rest => runCacheOps fetch (CacheOp.apply fetch c op) rest

/-! ## HTTP client (Client.Login / Client.Fetch; Client.Post is spec-
modelled, see below) -/

/-- Request body as the client builds it: empty (GET), the login JSON
`UserName`/`Password` payload, or caller-supplied raw bytes (POST). -/
inductive ReqBody : Type where
  | empty
  | loginJson (username password : String)
  | raw (bytes : String)
deriving DecidableEq

/-- HTTP request as the client assembles it: method, full URL, the
`X-Auth-Token` header when set, and the body. (`Accept` and
`Content-Type` are set unconditionally per method and carry no branch
in the code, so they are not tracked.) -/
structure HttpRequest : Type where
  method : String
  url : String
  authToken : Option String
  body : ReqBody
deriving DecidableEq

/-- HTTP response as the client reads it: status code, the
`X-Auth-Token` and `Location` headers (empty string when absent, as Go's
`Header.Get` reports), and the body bytes. -/
structure HttpResponse : Type where
  status : Nat
  authTokenHeader : String
  locationHeader : String
  body : String
deriving DecidableEq

/-- Transport oracle standing for `http.Client.Do`: a response per
request, or a transport failure (`Except.error`). -/
def Transport : Type := HttpRequest → Except Unit HttpResponse

/-- Model of `Client`: endpoint, session token and credentials. -/
structure Client : Type where
  endpoint : String
  token : String
  username : String
  password : String

/-- Login request (`POST {endpoint}/redfish/v1/SessionService/Sessions`
with the credentials payload and no token header). -/
def loginRequest (c : Client) : HttpRequest :=
  HttpRequest.mk "POST" (c.endpoint ++ "/redfish/v1/SessionService/Sessions")
    none (ReqBody.loginJson c.username c.password)

/-- Model of `Client.Login`: POST the credentials; transport failure is a
`NetworkError`, a status other than 200/201 an `HTTPError`; on success
the token is the `X-Auth-Token` header, or `"session-based"` when that
header is absent but `Location` is present. -/
def Client.Login (transport : Transport) (c : Client) : Except RErr Client :=
  match transport (loginRequest c) with
  | Except.error _ => Except.error (RErr.network "/SessionService/Sessions")
  | Except.ok resp =>
    if resp.status ≠ 201 ∧ resp.status ≠ 200 then
      Except.error (RErr.httpErr "/SessionService/Sessions" resp.status)
    else
      let token := resp.authTokenHeader
      let token :=
        if token = "" ∧ resp.locationHeader ≠ "" then "session-based"
        else token
      Except.ok { c with token := token }

/-- GET request for `Client.Fetch` at `path` under the current token
(header set only when the token is non-empty). -/
def fetchRequest (c : Client) (path : String) : HttpRequest :=
  HttpRequest.mk "GET" (c.endpoint ++ path)
    (if c.token ≠ "" then some c.token else none) ReqBody.empty

/-- Path as `Client.Fetch` normalizes it from its first byte `h`. -/
def fetchPathNorm (path : String) (h : Char) : String :=
  if h ≠ '/' then "/" ++ path else path

/-- Model of `Client.Fetch` (rvfs/parser.go): prepend a slash when
missing (indexing the first byte: the empty path is a Go runtime panic,
surfaced as `sliceOutOfRange 0`), GET once; on 401 re-login once (a
login failure surfaces `HTTPError 401`) and re-issue the request once
under the new token; any final status other than 200 is an `HTTPError`.
Returns the body with the possibly re-authenticated client, plus the
ordered list of issued requests (login's included). -/
def Client.Fetch (transport : Transport) (c : Client) (path : String) :
    Except RErr (String × Client) × List HttpRequest :=
  match path.toList.head? with
  | none => (Except.error (RErr.sliceOutOfRange 0), [])
  | some h =>
    let path := fetchPathNorm path h
    let req := fetchRequest c path
    match transport req with
    | Except.error _ => (Except.error (RErr.network path), [req])
    | Except.ok resp =>
      if resp.status = 401 then
        match Client.Login transport c with
        | Except.error _ =>
          (Except.error (RErr.httpErr path resp.status), [req, loginRequest c])
        | Except.ok c₂ =>
          let req₂ := fetchRequest c₂ path
          match transport req₂ with
          | Except.error _ =>
            (Except.error (RErr.network path), [req, loginRequest c, req₂])
          | Except.ok resp₂ =>
            if resp₂.status ≠ 200 then
              (Except.error (RErr.httpErr path resp₂.status),
               [req, loginRequest c, req₂])
            else (Except.ok (resp₂.body, c₂), [req, loginRequest c, req₂])
      else if resp.status ≠ 200 then
        (Except.error (RErr.httpErr path resp.status), [req])
      else (Except.ok (resp.body, c), [req])

/-- POST request for `Client.Post` at `path` with the given body under
the current token. -/
def postRequest (c : Client) (path : String) (body : String) : HttpRequest :=
  HttpRequest.mk "POST" (c.endpoint ++ path)
    (if c.token ≠ "" then some c.token else none) (ReqBody.raw body)

/-- Modelled from the spec: `Client.Post` is code of this repository that
is not under src (only its tests and callers are). Per §4.1 it POSTs the
body with the token, and "on `Fetch` or `Post` returning 401, the client
performs one login retry, then re-issues the original request once; a
second 401 surfaces as an HTTP error"; per §6 the pair `(bytes, status)`
is returned to the caller. -/
def Client.Post (transport : Transport) (c : Client) (path : String)
    (body : String) :
    Except RErr (String × Nat × Client) × List HttpRequest :=
  let req := postRequest c path body
  match transport req with
  | Except.error _ => (Except.error (RErr.network path), [req])
  | Except.ok resp =>
    if resp.status = 401 then
      match Client.Login transport c with
      | Except.error _ =>
        (Except.error (RErr.httpErr path resp.status), [req, loginRequest c])
      | Except.ok c₂ =>
        let req₂ := postRequest c₂ path body
        match transport req₂ with
        | Except.error _ =>
          (Except.error (RErr.network path), [req, loginRequest c, req₂])
        | Except.ok resp₂ =>
          if resp₂.status = 401 then
            (Except.error (RErr.httpErr path resp₂.status),
             [req, loginRequest c, req₂])
          else
            (Except.ok (resp₂.body, resp₂.status, c₂),
             [req, loginRequest c, req₂])
    else (Except.ok (resp.body, resp.status, c), [req])

/-! ## Concrete fixtures used by counterexamples and witnesses -/

/-- Array element `[0]` of the two-element fixture array. -/
def elemA0 : Property :=
  Property.mk "[0]" PropertyType.simple (some (GoValue.str "Pxe")) "" [] []

/-- Array element `[1]` of the two-element fixture array. -/
def elemA1 : Property :=
  Property.mk "[1]" PropertyType.simple (some (GoValue.str "Hdd")) "" [] []

/-- Property map holding one Array property `A` with two elements. -/
def propsA : List (String × Property) :=
  [("A", Property.mk "A" PropertyType.array none "" [] [elemA0, elemA1])]

/-- Root service resource fixture. -/
def resRoot : Resource :=
  { path := "/redfish/v1", odataID := "/redfish/v1", odataType := ""
    rawJSON := Json.obj [], properties := [], children := [] }

/-- Cache environment serving exactly the root. -/
def envRootOnly : CacheEnv := fun p =>
  if p = "/redfish/v1" then Except.ok resRoot
  else Except.error (RErr.notFound p)

/-! ## C7 — normalization idempotence -/

/-- C7: the claim `normalize(normalize(p)) = normalize(p)` for all path
strings, with `"/"` a permitted normalized form, fails at `p = "/"`:
`strings.TrimRight` strips the lone slash, so `normalizePath "/" = ""`,
which renormalizes to `"/redfish/v1"`; the output also contradicts the
function's own comment ("ensures path starts with /"). -/
theorem C7_normalizePath_root_breaks_idempotence :
    normalizePath "/" = "" ∧
    normalizePath (normalizePath "/") = "/redfish/v1" ∧
    normalizePath (normalizePath "/") ≠ normalizePath "/" :=
  ⟨rfl, rfl, by decide⟩

/-! ## C1 — array-segment navigation -/

/-- C1: the claim that `name[i]` navigation succeeds only for an integer
`i` with `0 ≤ i < elements.length` and fails with an error otherwise
fails on the code at two inputs: `fmt.Sscanf`'s error is ignored, so the
non-integer index `A[abc]` leaves `index = 0` and navigation succeeds,
returning `elements[0]`; and only `index >= len` is guarded, so the
negative index `A[-1]` reaches the slice access `prop.Elements[-1]`, a
Go runtime out-of-range panic rather than a returned error. -/
theorem C1_navigate_segment_index_bug :
    navigatePropertySegment propsA "A[abc]" = Except.ok elemA0 ∧
    navigatePropertySegment propsA "A[-1]" =
      Except.error (RErr.sliceOutOfRange (-1)) ∧
    navigatePropertySegment propsA "A[1]" = Except.ok elemA1 ∧
    navigatePropertySegment propsA "A[2]" =
      Except.error (RErr.indexOutOfBounds 2) :=
  ⟨rfl, rfl, rfl, rfl⟩

/-! ## C5 — empty target on empty base -/

/-- C5 counterexample: with the root resource available from the cache,
`ResolveTarget "" ""` does not return the root resource target the claim
promises; `resolveAbsolute` rejects the empty string (it lacks the
`/redfish/v1` prefix) with an `InvalidPath` error before consulting the
cache. -/
theorem C5_counterexample_empty_empty_fails :
    ResolveTarget envRootOnly "" "" =
      (Except.error (RErr.invalidPath ""), []) ∧
    ResolveTarget envRootOnly "" "" ≠
      (Except.ok (Target.mk TargetType.resource (some resRoot) none
        RedfishRoot), [RedfishRoot]) :=
  ⟨rfl, fun h => Except.noConfusion (congrArg Prod.fst h)⟩

/-- C5 amended: `ResolveTarget` with empty target and empty base fails
with `InvalidPath` (for every cache environment); the root resource
target is produced instead when the base is `/redfish/v1` and the cache
serves the root. -/
theorem C5_amended_empty_empty_invalid (env : CacheEnv) (r : Resource)
    (h : env RedfishRoot = Except.ok r) :
    ResolveTarget env "" "" = (Except.error (RErr.invalidPath ""), []) ∧
    ResolveTarget env RedfishRoot "" =
      (Except.ok (Target.mk TargetType.resource (some r) none RedfishRoot),
       [RedfishRoot]) := by
  refine ⟨rfl, ?_⟩
  have hstep : ResolveTarget env RedfishRoot "" =
      (match env RedfishRoot with
       | Except.ok res =>
         (Except.ok (Target.mk TargetType.resource (some res) none
           RedfishRoot), [RedfishRoot])
       | Except.error e => (Except.error e, [RedfishRoot])) := rfl
  rw [hstep, h]

/-- C5 witness: the amended statement at the concrete root-only
environment. -/
theorem C5_amended_empty_empty_invalid_witness :
    ResolveTarget envRootOnly "" "" =
      (Except.error (RErr.invalidPath ""), []) ∧
    ResolveTarget envRootOnly RedfishRoot "" =
      (Except.ok (Target.mk TargetType.resource (some resRoot) none
        RedfishRoot), [RedfishRoot]) :=
  C5_amended_empty_empty_invalid envRootOnly resRoot rfl

/-! ## C6 — URI-by-name string classification -/

/-- C6 counterexample: a top-level string property literally named
`target` — not inside any `Actions` subtree — whose value starts with
`/` is parsed as a `Link` property, where the claim requires `Simple`
for a `target` outside an `Actions` subtree. -/
theorem C6_counterexample_target_outside_actions :
    Parse "/x" (Json.obj [("target", Json.str "/foo")]) =
      Except.ok
        { path := "/x", odataID := "", odataType := ""
          rawJSON := Json.obj [("target", Json.str "/foo")]
          properties :=
            [("target", Property.mk "target" PropertyType.link none "/foo"
              [] [])]
          children := [] } ∧
    (parseProperty "target" (Json.str "/foo")).ptype ≠
      PropertyType.simple :=
  ⟨rfl, by decide⟩

/-- C6 amended: a JSON string value becomes a `Link` property exactly
when the name ends with `Uri` or `URI`, equals `@Redfish.ActionInfo`, or
equals `target` — with no condition on an `Actions` subtree — and the
value begins with `/`; in every other case it is a `Simple` property
holding the string. -/
theorem C6_amended_uri_string_classification (name s : String) :
    parseProperty name (Json.str s) =
      (if (strEnds name "Uri" || strEnds name "URI"
            || name = "@Redfish.ActionInfo" || name = "target")
          && strStarts s "/" then
        Property.mk name PropertyType.link none s [] []
      else
        Property.mk name PropertyType.simple (some (GoValue.str s)) "" [] []) := by
  show (if isURIProperty name && strStarts s "/" then
          Property.mk name PropertyType.link none s [] []
        else
          Property.mk name PropertyType.simple (some (GoValue.str s)) "" [] [])
      = _
  have huri : isURIProperty name =
      (strEnds name "Uri" || strEnds name "URI"
        || name = "@Redfish.ActionInfo" || name = "target") := by
    unfold isURIProperty
    by_cases h₁ : strEnds name "Uri" || strEnds name "URI" <;>
      by_cases h₂ : name = "@Redfish.ActionInfo" <;>
        by_cases h₃ : name = "target" <;>
          simp [h₁, h₂, h₃]
  rw [huri]

/-! ## C2 — child/property key disjointness -/

/-- Collection document whose `Members` entry points at a URL whose last
segment collides with the top-level property `Name`. -/
def docMembersCollision : List (String × Json) :=
  [("Members",
    Json.arr [Json.obj [("@odata.id", Json.str "/redfish/v1/Systems/Name")]]),
   ("Name", Json.str "x")]

/-- Parse result of `docMembersCollision`: the member-derived child and
the ordinary property share the key `Name`. -/
def resMembersCollision : Resource :=
  { path := "/redfish/v1/Systems", odataID := "", odataType := ""
    rawJSON := Json.obj docMembersCollision
    properties :=
      [("Name",
        Property.mk "Name" PropertyType.simple (some (GoValue.str "x")) ""
          [] [])]
    children :=
      [("Name",
        Child.mk "Name" ChildType.link "/redfish/v1/Systems/Name"
          "/redfish/v1/Systems")] }

/-- C2 counterexample: `Parser.Parse` can produce overlapping child and
property key sets — a child extracted from a `Members` link array is
named by the last URL segment of its `@odata.id`, and nothing prevents
that name from also being a top-level property key. -/
theorem C2_counterexample_members_collision :
    Parse "/redfish/v1/Systems" (Json.obj docMembersCollision) =
      Except.ok resMembersCollision ∧
    "Name" ∈ AList.keys resMembersCollision.children ∧
    "Name" ∈ AList.keys resMembersCollision.properties :=
  ⟨rfl, by decide, by decide⟩

/-- Disjointness invariant of the top-level classification loop: with
duplicate-free keys, no `Members` key, and accumulators that are
disjoint and fresh for every remaining key, the loop keeps the child
and property key sets disjoint. -/
theorem parseTop_disjoint (path : String) :
    ∀ (fields : List (String × Json)) (cs : List (String × Child))
      (ps : List (String × Property)),
      (fields.map Prod.fst).Nodup →
      "Members" ∉ fields.map Prod.fst →
      (∀ k, k ∈ fields.map Prod.fst → k ∉ AList.keys cs) →
      (∀ k, k ∈ fields.map Prod.fst → k ∉ AList.keys ps) →
      (∀ k, k ∈ AList.keys cs → k ∉ AList.keys ps) →
      ∀ k, k ∈ AList.keys (parseTop path cs ps fields).1 →
        k ∉ AList.keys (parseTop path cs ps fields).2 := by
  intro fields
  induction fields with
  | nil =>
    intro cs ps _ _ _ _ hdisj
    simpa [parseTop] using hdisj
  | cons hd rest ih =>
    obtain ⟨k, v⟩ := hd
    intro cs ps hnodup hM hcs hps hdisj
    simp only [List.map_cons, List.nodup_cons, List.mem_cons] at hnodup hM hcs hps
    push_neg at hM
    have hrest_nodup := hnodup.2
    have hrest_M := hM.2
    have hk_not_rest := hnodup.1
    have hk_cs : k ∉ AList.keys cs := hcs k (Or.inl rfl)
    have hk_ps : k ∉ AList.keys ps := hps k (Or.inl rfl)
    have hrest_cs : ∀ j, j ∈ rest.map Prod.fst → j ∉ AList.keys cs :=
      fun j hj => hcs j (Or.inr hj)
    have hrest_ps : ∀ j, j ∈ rest.map Prod.fst → j ∉ AList.keys ps :=
      fun j hj => hps j (Or.inr hj)
    -- freshness of the remaining keys after inserting `k` into either map
    have fresh_cs : ∀ (c : Child) j, j ∈ rest.map Prod.fst →
        j ∉ AList.keys (AList.insert cs k c) := by
      intro c j hj hmem
      rcases (AList.mem_keys_insert cs k j c).mp hmem with h | h
      · exact hrest_cs j hj h
      · exact hk_not_rest (h ▸ hj)
    have fresh_ps : ∀ (p : Property) j, j ∈ rest.map Prod.fst →
        j ∉ AList.keys (AList.insert ps k p) := by
      intro p j hj hmem
      rcases (AList.mem_keys_insert ps k j p).mp hmem with h | h
      · exact hrest_ps j hj h
      · exact hk_not_rest (h ▸ hj)
    -- disjointness after inserting `k` on the child side
    have disj_cs : ∀ (c : Child) j,
        j ∈ AList.keys (AList.insert cs k c) → j ∉ AList.keys ps := by
      intro c j hj
      rcases (AList.mem_keys_insert cs k j c).mp hj with h | h
      · exact hdisj j h
      · exact h ▸ hk_ps
    -- disjointness after inserting `k` on the property side
    have disj_ps : ∀ (p : Property) j, j ∈ AList.keys cs →
        j ∉ AList.keys (AList.insert ps k p) := by
      intro p j hj hmem
      rcases (AList.mem_keys_insert ps k j p).mp hmem with h | h
      · exact hdisj j hj h
      · exact hk_cs (h ▸ hj)
    by_cases hod : strStarts k "@odata." = true
    · simpa [parseTop, hod] using
        ih cs ps hrest_nodup hrest_M hrest_cs hrest_ps hdisj
    · cases v with
      | obj fs =>
        by_cases hlo : isLinkOnly fs = true
        · simpa [parseTop, hod, hlo] using
            ih (AList.insert cs k
                (Child.mk k (classifyLink path (extractODataID fs))
                  (extractODataID fs) path)) ps
              hrest_nodup hrest_M (fresh_cs _) hrest_ps (disj_cs _)
        · simpa [parseTop, hod, hlo] using
            ih cs (AList.insert ps k (parseProperty k (Json.obj fs)))
              hrest_nodup hrest_M hrest_cs (fresh_ps _) (disj_ps _)
      | arr elems =>
        have hkM : ¬ k = "Members" := fun h => hM.1 h.symm
        simpa [parseTop, hod, hkM] using
          ih cs (AList.insert ps k (parseProperty k (Json.arr elems)))
            hrest_nodup hrest_M hrest_cs (fresh_ps _) (disj_ps _)
      | str s =>
        simpa [parseTop, hod] using
          ih cs (AList.insert ps k (parseProperty k (Json.str s)))
            hrest_nodup hrest_M hrest_cs (fresh_ps _) (disj_ps _)
      | num lit =>
        simpa [parseTop, hod] using
          ih cs (AList.insert ps k (parseProperty k (Json.num lit)))
            hrest_nodup hrest_M hrest_cs (fresh_ps _) (disj_ps _)
      | boolean b =>
        simpa [parseTop, hod] using
          ih cs (AList.insert ps k (parseProperty k (Json.boolean b)))
            hrest_nodup hrest_M hrest_cs (fresh_ps _) (disj_ps _)
      | null =>
        simpa [parseTop, hod] using
          ih cs (AList.insert ps k (parseProperty k Json.null))
            hrest_nodup hrest_M hrest_cs (fresh_ps _) (disj_ps _)

/-- C2 amended: `children.keys ∩ properties.keys = ∅` holds for every
parsed resource whose document has duplicate-free top-level keys and no
`Members` key (a `Members` link array derives child names from member
URLs, which the counterexample shows can collide with property keys). -/
theorem C2_amended_disjoint_without_members (path : String)
    (fields : List (String × Json)) (r : Resource)
    (hnodup : (fields.map Prod.fst).Nodup)
    (hM : "Members" ∉ fields.map Prod.fst)
    (h : Parse path (Json.obj fields) = Except.ok r) :
    ∀ k, k ∈ AList.keys r.children → k ∉ AList.keys r.properties := by
  have hr : r = { path := normalizePath path
                  odataID := (getStringOpt fields "@odata.id").getD ""
                  odataType := (getStringOpt fields "@odata.type").getD ""
                  rawJSON := Json.obj fields
                  properties := (parseTop path [] [] fields).2
                  children := (parseTop path [] [] fields).1 } := by
    cases h' : Parse path (Json.obj fields) with
    | ok r₂ =>
      rw [h'] at h
      cases h
      cases h'
      rfl
    | error e => rw [h'] at h; cases h
  subst hr
  exact parseTop_disjoint path fields [] []
    hnodup hM (by simp) (by simp) (by simp)

/-- Service-root document of scenario S1. -/
def docServiceRoot : List (String × Json) :=
  [("@odata.id", Json.str "/redfish/v1"),
   ("@odata.type", Json.str "#ServiceRoot.v1_0_0.ServiceRoot"),
   ("Id", Json.str "RootService"),
   ("Name", Json.str "Root Service"),
   ("RedfishVersion", Json.str "1.6.0"),
   ("Systems", Json.obj [("@odata.id", Json.str "/redfish/v1/Systems")]),
   ("Chassis", Json.obj [("@odata.id", Json.str "/redfish/v1/Chassis")])]

/-- Parse result of the S1 service-root document. -/
def resServiceRoot : Resource :=
  { path := "/redfish/v1", odataID := "/redfish/v1"
    odataType := "#ServiceRoot.v1_0_0.ServiceRoot"
    rawJSON := Json.obj docServiceRoot
    properties :=
      [("Id", Property.mk "Id" PropertyType.simple
          (some (GoValue.str "RootService")) "" [] []),
       ("Name", Property.mk "Name" PropertyType.simple
          (some (GoValue.str "Root Service")) "" [] []),
       ("RedfishVersion", Property.mk "RedfishVersion" PropertyType.simple
          (some (GoValue.str "1.6.0")) "" [] [])]
    children :=
      [("Systems", Child.mk "Systems" ChildType.link "/redfish/v1/Systems"
          "/redfish/v1"),
       ("Chassis", Child.mk "Chassis" ChildType.link "/redfish/v1/Chassis"
          "/redfish/v1")] }

/-- C2 witness: the amended disjointness at the concrete S1 service-root
document, instantiated at the child key `Systems`. -/
theorem C2_amended_disjoint_without_members_witness :
    "Systems" ∈ AList.keys resServiceRoot.children ∧
    "Systems" ∉ AList.keys resServiceRoot.properties :=
  ⟨by decide,
   C2_amended_disjoint_without_members "/redfish/v1" docServiceRoot
     resServiceRoot (by decide) (by decide) rfl "Systems" (by decide)⟩

/-! ## Normalization lemmas -/

theorem trimTrailingSlashes_toList (s : String) :
    (trimTrailingSlashes s).toList =
      List.rdropWhile (fun c => decide (c = '/')) s.toList := rfl

theorem trimTrailingSlashes_mk (cs : List Char) :
    trimTrailingSlashes (String.mk cs) =
      String.mk (List.rdropWhile (fun c => decide (c = '/')) cs) := rfl

theorem head?_dropWhile_not (p : Char → Bool) (l : List Char) (c : Char)
    (h : (l.dropWhile p).head? = some c) : p c = false := by
  induction l with
  | nil => cases h
  | cons a t ih =>
    by_cases ha : p a = true
    · rw [List.dropWhile_cons_of_pos ha] at h
      exact ih h
    · rw [List.dropWhile_cons_of_neg ha] at h
      simp only [List.head?_cons, Option.some.injEq] at h
      subst h
      exact Bool.eq_false_iff.mpr ha

theorem strStarts_slash_of_head (s : String) (h : s.toList.head? = some '/') :
    strStarts s "/" = true := by
  show List.isPrefixOf ['/'] s.toList = true
  cases hs : s.toList with
  | nil => rw [hs] at h; cases h
  | cons c t =>
    rw [hs] at h
    simp only [List.head?_cons, Option.some.injEq] at h
    subst h
    show (('/' == '/') && List.isPrefixOf [] t) = true
    simp [List.isPrefixOf]

theorem strEnds_slash_eq (s : String) :
    strEnds s "/" = decide (s.toList.reverse.head? = some '/') := by
  show List.isPrefixOf ['/'] s.toList.reverse = _
  cases h : s.toList.reverse with
  | nil => simp [List.isPrefixOf]
  | cons c t =>
    show (('/' == c) && List.isPrefixOf [] t) = decide (some c = some '/')
    by_cases hc : c = '/'
    · subst hc
      simp [List.isPrefixOf]
    · have h₁ : ('/' == c) = false := by
        simp only [beq_eq_false_iff_ne, ne_eq]
        exact fun hh => hc hh.symm
      have h₂ : decide (some c = some '/') = false := by
        simp [hc]
      simp only [h₁, Bool.false_and, h₂]

theorem strEnds_trim_eq_false (s : String) :
    strEnds (trimTrailingSlashes s) "/" = false := by
  rw [strEnds_slash_eq, trimTrailingSlashes_toList]
  simp only [List.rdropWhile, List.reverse_reverse]
  cases h : (s.toList.reverse.dropWhile (fun c => decide (c = '/'))).head? with
  | none => simp
  | some c =>
    have hc := head?_dropWhile_not _ _ _ h
    simp only [decide_eq_false_iff_not] at hc
    simp [hc]

theorem trimTrailingSlashes_head (s : String)
    (hs : s.toList.head? = some '/')
    (hne : trimTrailingSlashes s ≠ "") :
    (trimTrailingSlashes s).toList.head? = some '/' := by
  have hpre : (trimTrailingSlashes s).toList <+: s.toList := by
    rw [trimTrailingSlashes_toList]
    exact List.rdropWhile_prefix _ _
  obtain ⟨t, ht⟩ := hpre
  cases hcons : (trimTrailingSlashes s).toList with
  | nil =>
    exfalso
    apply hne
    have hmk : trimTrailingSlashes s =
        String.mk ((trimTrailingSlashes s).toList) := rfl
    rw [hmk, hcons]
  | cons c cs =>
    rw [hcons] at ht
    cases hslist : s.toList with
    | nil => rw [hslist] at hs; cases hs
    | cons d ds =>
      rw [hslist] at ht hs
      simp only [List.head?_cons, Option.some.injEq] at hs
      have hcd : c = d := by
        simp only [List.cons_append, List.cons.injEq] at ht
        exact ht.1
      simp [List.head?_cons, hcd, hs]

theorem trimTrailingSlashes_idem (s : String) :
    trimTrailingSlashes (trimTrailingSlashes s) = trimTrailingSlashes s := by
  have h₁ : trimTrailingSlashes s =
      String.mk (List.rdropWhile (fun c => decide (c = '/')) s.toList) := rfl
  rw [h₁, trimTrailingSlashes_mk, List.rdropWhile_idempotent]

theorem toList_slash_append (p : String) :
    ("/" ++ p).toList = '/' :: p.toList := rfl

theorem normalizePath_ne_empty_eq (p : String) (hp : p ≠ "") :
    normalizePath p =
      trimTrailingSlashes
        (if p.toList.head? ≠ some '/' then "/" ++ p else p) := by
  simp [normalizePath, hp]

/-- Shape of every non-empty `normalizePath` output: it begins with `/`,
carries no trailing slash, and renormalizes to itself. -/
theorem normalizePath_normalized (p : String) (h : normalizePath p ≠ "") :
    strStarts (normalizePath p) "/" = true ∧
    strEnds (normalizePath p) "/" = false ∧
    normalizePath (normalizePath p) = normalizePath p := by
  by_cases hp : p = ""
  · subst hp
    refine ⟨by decide, by decide, by decide⟩
  · have hdef := normalizePath_ne_empty_eq p hp
    set q : String := if p.toList.head? ≠ some '/' then "/" ++ p else p
      with hq
    have hqhead : q.toList.head? = some '/' := by
      by_cases hh : p.toList.head? = some '/'
      · have hqp : q = p := by rw [hq, if_neg (fun hcon => hcon hh)]
        rw [hqp]
        exact hh
      · have hqp : q = "/" ++ p := by rw [hq, if_pos hh]
        rw [hqp, toList_slash_append]
        simp
    rw [hdef] at h ⊢
    have hstart : (trimTrailingSlashes q).toList.head? = some '/' :=
      trimTrailingSlashes_head q hqhead h
    refine ⟨strStarts_slash_of_head _ hstart, strEnds_trim_eq_false q, ?_⟩
    have h₁ := normalizePath_ne_empty_eq (trimTrailingSlashes q) h
    have h₂ : (if (trimTrailingSlashes q).toList.head? ≠ some '/'
        then "/" ++ trimTrailingSlashes q else trimTrailingSlashes q) =
        trimTrailingSlashes q := by
      rw [if_neg (fun hcon => hcon hstart)]
    rw [h₁, h₂, trimTrailingSlashes_idem]

/-- Every `Resource` produced by `Parse` has the normalized fetch path
as its `Path` field. -/
theorem Parse_ok_path (path : String) (data : Json) (r : Resource)
    (h : Parse path data = Except.ok r) : r.path = normalizePath path := by
  cases data with
  | obj fields =>
    simp only [Parse, Except.ok.injEq] at h
    rw [← h]
  | str s => cases h
  | num lit => cases h
  | boolean b => cases h
  | null => cases h
  | arr elems => cases h

/-! ## C10 — cache key normalization invariant -/

theorem AList.mem_insert {α : Type} (m : List (String × α)) (k : String)
    (v : α) (kv : String × α) :
    kv ∈ AList.insert m k v → kv ∈ m ∨ kv = (k, v) := by
  induction m with
  | nil =>
    intro h
    simp only [AList.insert, List.mem_singleton] at h
    exact Or.inr h
  | cons hd tl ih =>
    obtain ⟨k₀, v₀⟩ := hd
    intro h
    by_cases hk : k₀ = k
    · have hins : AList.insert ((k₀, v₀) :: tl) k v = (k, v) :: tl := by
        show (if k₀ = k then (k, v) :: tl else (k₀, v₀) :: AList.insert tl k v)
            = (k, v) :: tl
        rw [if_pos hk]
      rw [hins] at h
      rcases List.mem_cons.mp h with h | h
      · exact Or.inr h
      · exact Or.inl (List.mem_cons_of_mem _ h)
    · have hins : AList.insert ((k₀, v₀) :: tl) k v =
          (k₀, v₀) :: AList.insert tl k v := by
        show (if k₀ = k then (k, v) :: tl else (k₀, v₀) :: AList.insert tl k v)
            = (k₀, v₀) :: AList.insert tl k v
        rw [if_neg hk]
      rw [hins] at h
      rcases List.mem_cons.mp h with h | h
      · exact Or.inl (h ▸ List.mem_cons_self _ _)
      · rcases ih h with h₂ | h₂
        · exact Or.inl (List.mem_cons_of_mem _ h₂)
        · exact Or.inr h₂

theorem AList.mem_erase {α : Type} (m : List (String × α)) (k : String)
    (kv : String × α) : kv ∈ AList.erase m k → kv ∈ m := by
  induction m with
  | nil =>
    intro h
    simp [AList.erase] at h
  | cons hd tl ih =>
    obtain ⟨k₀, v₀⟩ := hd
    intro h
    by_cases hk : k₀ = k
    · have hdel : AList.erase ((k₀, v₀) :: tl) k = tl := by
        show (if k₀ = k then tl else (k₀, v₀) :: AList.erase tl k) = tl
        rw [if_pos hk]
      rw [hdel] at h
      exact List.mem_cons_of_mem _ h
    · have hdel : AList.erase ((k₀, v₀) :: tl) k =
          (k₀, v₀) :: AList.erase tl k := by
        show (if k₀ = k then tl else (k₀, v₀) :: AList.erase tl k)
            = (k₀, v₀) :: AList.erase tl k
        rw [if_neg hk]
      rw [hdel] at h
      rcases List.mem_cons.mp h with h | h
      · exact h ▸ List.mem_cons_self _ _
      · exact List.mem_cons_of_mem _ (ih h)

/-- Claimed store invariant of C10, as a decidable check: every key
begins with `/`, has no trailing slash, and equals the `Path` field of
the resource stored under it. -/
def NormalizedStore (c : ResourceCache) : Bool :=
  c.store.all (fun kv =>
    strStarts kv.1 "/" && !(strEnds kv.1 "/") && (kv.2.path == kv.1))

/-- Resource the repo's parser produces for the fetch path `/` (its
`Path` field is the empty string: `normalizePath` strips the lone
slash). -/
def resFromSlash : Resource :=
  { path := "", odataID := "", odataType := "", rawJSON := Json.obj []
    properties := [], children := [] }

/-- Fetch environment never consulted by the counterexample. -/
def fetchNone : FetchEnv := fun p => Except.error (RErr.network p)

/-- C10 counterexample: `Put` stores a resource under its `Path` field
verbatim, and the parser itself produces a resource whose `Path` is the
empty string (fetch path `/`), so one `Put` starting from the empty
cache yields the key `""`, which does not begin with `/`. -/
theorem C10_counterexample_put_unnormalized_key :
    Parse "/" (Json.obj []) = Except.ok resFromSlash ∧
    (runCacheOps fetchNone (ResourceCache.mk [] false)
        [CacheOp.put resFromSlash]).store = [("", resFromSlash)] ∧
    strStarts "" "/" = false ∧
    NormalizedStore (runCacheOps fetchNone (ResourceCache.mk [] false)
        [CacheOp.put resFromSlash]) = false :=
  ⟨rfl, rfl, rfl, rfl⟩

/-- Safety of one operation for the amended C10: a `Get` path must not
normalize to the empty string (a nonempty all-slash path — on such a
path the real composed system never returns: `Client.Fetch` indexes the
first byte of the empty normalized path), and a `Put` resource must
already carry a normalized non-empty `Path`. -/
def CacheOp.safe : CacheOp → Bool
  | .get path => !(normalizePath path == "")
  | .put resource => strStarts resource.path "/" && !(strEnds resource.path "/")
  | .invalidate _ => true
  | .clear => true

/-- State evolution of `ResourceCache.Get`: the store is unchanged, or
gains exactly the entry for the normalized path carrying the resource
parsed from the fetched document. -/
theorem cacheGet_state (fetch : FetchEnv) (c : ResourceCache)
    (path : String) :
    (ResourceCache.Get fetch c path).2.1 = c ∨
    ∃ r data, fetch (normalizePath path) = Except.ok data ∧
      Parse (normalizePath path) data = Except.ok r ∧
      (ResourceCache.Get fetch c path).2.1 =
        { c with store := AList.insert c.store (normalizePath path) r } := by
  cases hl : AList.lookup c.store (normalizePath path) with
  | some r => exact Or.inl (by simp [ResourceCache.Get, hl])
  | none =>
    by_cases hoff : c.offline
    · exact Or.inl (by simp [ResourceCache.Get, hl, hoff])
    · cases hf : fetch (normalizePath path) with
      | error e => exact Or.inl (by simp [ResourceCache.Get, hl, hoff, hf])
      | ok data =>
        cases hp : Parse (normalizePath path) data with
        | error e =>
          exact Or.inl (by simp [ResourceCache.Get, hl, hoff, hf, hp])
        | ok r =>
          exact Or.inr ⟨r, data, rfl, hp,
            by simp [ResourceCache.Get, hl, hoff, hf, hp]⟩

/-- One safe cache operation preserves the normalized-store invariant. -/
theorem cacheOp_preserves_normalized (fetch : FetchEnv) (c : ResourceCache)
    (op : CacheOp) (hc : NormalizedStore c = true)
    (hop : CacheOp.safe op = true) :
    NormalizedStore (CacheOp.apply fetch c op) = true := by
  rw [NormalizedStore, List.all_eq_true] at hc ⊢
  cases op with
  | get path =>
    have hne : normalizePath path ≠ "" := by
      simp only [CacheOp.safe, Bool.not_eq_true', beq_eq_false_iff_ne,
        ne_eq] at hop
      exact hop
    obtain ⟨hst, hend, hidem⟩ := normalizePath_normalized path hne
    rcases cacheGet_state fetch c path with hsame | ⟨r, data, _, hp, heq⟩
    · show ∀ kv ∈ (CacheOp.apply fetch c (CacheOp.get path)).store, _
      simp only [CacheOp.apply, hsame]
      exact hc
    · show ∀ kv ∈ (CacheOp.apply fetch c (CacheOp.get path)).store, _
      simp only [CacheOp.apply, heq]
      intro kv hkv
      rcases AList.mem_insert _ _ _ _ hkv with hm | hnew
      · exact hc kv hm
      · subst hnew
        have hpath : r.path = normalizePath path :=
          (Parse_ok_path _ _ _ hp).trans hidem
        simp [hst, hend, hpath]
  | put resource =>
    simp only [CacheOp.safe, Bool.and_eq_true, Bool.not_eq_true'] at hop
    intro kv hkv
    rcases AList.mem_insert _ _ _ _ hkv with hm | hnew
    · exact hc kv hm
    · subst hnew
      simp [hop.1, hop.2]
  | invalidate path =>
    intro kv hkv
    exact hc kv (AList.mem_erase _ _ _ hkv)
  | clear =>
    intro kv hkv
    simp [CacheOp.apply, ResourceCache.Clear] at hkv

/-- Safe operation sequences preserve the normalized-store invariant
from any state satisfying it. -/
theorem runCacheOps_preserves_normalized (fetch : FetchEnv) :
    ∀ (ops : List CacheOp) (c : ResourceCache),
      NormalizedStore c = true → ops.all CacheOp.safe = true →
      NormalizedStore (runCacheOps fetch c ops) = true := by
  intro ops
  induction ops with
  | nil => intro c hc _; exact hc
  | cons op rest ih =>
    intro c hc hops
    simp only [List.all_cons, Bool.and_eq_true] at hops
    exact ih _ (cacheOp_preserves_normalized fetch c op hc hops.1) hops.2

/-- C10 amended: starting from the empty cache (either offline mode),
every sequence of `Get`, `Put`, `Invalidate` and `Clear` operations
preserves the invariant that each store key is a normalized path equal
to the stored resource's `Path` field — provided no `Get` path
normalizes to the empty string and every `Put` resource already carries
a normalized non-empty `Path` (the counterexample shows `Put` breaks the
invariant otherwise). -/
theorem C10_amended_safe_ops_normalized (fetch : FetchEnv) (off : Bool)
    (ops : List CacheOp) (hops : ops.all CacheOp.safe = true) :
    NormalizedStore (runCacheOps fetch (ResourceCache.mk [] off) ops) =
      true :=
  runCacheOps_preserves_normalized fetch ops _ rfl hops

/-- Fetch environment serving an empty JSON object for the root. -/
def fetchRootObj : FetchEnv := fun p =>
  if p = "/redfish/v1" then Except.ok (Json.obj []) else
    Except.error (RErr.network p)

/-- C10 witness: a concrete safe sequence — fetch the root, invalidate
it, re-fetch, put a normalized resource, clear — keeps the store
invariant. -/
theorem C10_amended_safe_ops_normalized_witness :
    NormalizedStore (runCacheOps fetchRootObj (ResourceCache.mk [] false)
      [CacheOp.get "/redfish/v1", CacheOp.invalidate "/redfish/v1",
       CacheOp.get "/redfish/v1/", CacheOp.put resRoot, CacheOp.clear]) =
      true :=
  C10_amended_safe_ops_normalized fetchRootObj false
    [CacheOp.get "/redfish/v1", CacheOp.invalidate "/redfish/v1",
     CacheOp.get "/redfish/v1/", CacheOp.put resRoot, CacheOp.clear]
    (by decide)

/-! ## C3 — fetch-on-miss, hit without fetch, invalidate refetches -/

theorem AList.keys_insert_nodup {α : Type} (m : List (String × α))
    (k : String) (v : α) (hm : (AList.keys m).Nodup) :
    (AList.keys (AList.insert m k v)).Nodup := by
  induction m with
  | nil => simp [AList.insert, AList.keys]
  | cons hd tl ih =>
    obtain ⟨k₀, v₀⟩ := hd
    simp only [AList.keys_cons, List.nodup_cons] at hm
    by_cases hk : k₀ = k
    · have hins : AList.insert ((k₀, v₀) :: tl) k v = (k, v) :: tl := by
        show (if k₀ = k then (k, v) :: tl else (k₀, v₀) :: AList.insert tl k v)
            = (k, v) :: tl
        rw [if_pos hk]
      rw [hins]
      simp only [AList.keys_cons, List.nodup_cons]
      exact ⟨hk ▸ hm.1, hm.2⟩
    · have hins : AList.insert ((k₀, v₀) :: tl) k v =
          (k₀, v₀) :: AList.insert tl k v := by
        show (if k₀ = k then (k, v) :: tl else (k₀, v₀) :: AList.insert tl k v)
            = (k₀, v₀) :: AList.insert tl k v
        rw [if_neg hk]
      rw [hins]
      simp only [AList.keys_cons, List.nodup_cons]
      refine ⟨fun hmem => ?_, ih hm.2⟩
      rcases (AList.mem_keys_insert tl k k₀ v).mp hmem with h | h
      · exact hm.1 h
      · exact hk h

/-- C3: `Get` normalizes, answers hits from the store with no fetch,
fails with `NotCached` on an offline miss with no fetch, performs
exactly one fetch on an online miss (inserting the parsed resource, so
the immediately following `Get` of the same path answers from the store
with no fetch), and after `Invalidate` the next `Get` performs exactly
one fetch again. -/
theorem C3_cache_get_fetch_discipline (fetch : FetchEnv) (c : ResourceCache)
    (path : String) :
    (∀ r, AList.lookup c.store (normalizePath path) = some r →
      ResourceCache.Get fetch c path = (Except.ok r, c, [])) ∧
    (AList.lookup c.store (normalizePath path) = none → c.offline = true →
      ResourceCache.Get fetch c path =
        (Except.error (RErr.notCached (normalizePath path)), c, [])) ∧
    (∀ data r, AList.lookup c.store (normalizePath path) = none →
      c.offline = false →
      fetch (normalizePath path) = Except.ok data →
      Parse (normalizePath path) data = Except.ok r →
      ResourceCache.Get fetch c path =
        (Except.ok r,
         { c with store := AList.insert c.store (normalizePath path) r },
         [normalizePath path]) ∧
      ResourceCache.Get fetch
          { c with store := AList.insert c.store (normalizePath path) r }
          path =
        (Except.ok r,
         { c with store := AList.insert c.store (normalizePath path) r },
         [])) ∧
    ((AList.keys c.store).Nodup → c.offline = false →
      ∀ r,
      (ResourceCache.Get fetch
        (ResourceCache.Invalidate
          { c with store := AList.insert c.store (normalizePath path) r }
          path) path).2.2 = [normalizePath path]) := by
  refine ⟨?_, ?_, ?_, ?_⟩
  · intro r hl
    simp [ResourceCache.Get, hl]
  · intro hl hoff
    simp [ResourceCache.Get, hl, hoff]
  · intro data r hl hoff hf hp
    constructor
    · simp [ResourceCache.Get, hl, hoff, hf, hp]
    · have hl₂ : AList.lookup
          (AList.insert c.store (normalizePath path) r)
          (normalizePath path) = some r :=
        AList.lookup_insert _ _ _
      simp [ResourceCache.Get, hl₂]
  · intro hnodup hoff r
    have hl₃ : AList.lookup
        (AList.erase (AList.insert c.store (normalizePath path) r)
          (normalizePath path)) (normalizePath path) = none :=
      AList.lookup_erase _ _
        (AList.keys_insert_nodup _ _ _ hnodup)
    show (ResourceCache.Get fetch
        { store := AList.erase (AList.insert c.store (normalizePath path) r)
            (normalizePath path)
          offline := c.offline } path).2.2 = _
    cases hf : fetch (normalizePath path) with
    | error e => simp [ResourceCache.Get, hl₃, hoff, hf]
    | ok data =>
      cases hp : Parse (normalizePath path) data with
      | error e => simp [ResourceCache.Get, hl₃, hoff, hf, hp]
      | ok r₂ => simp [ResourceCache.Get, hl₃, hoff, hf, hp]

/-- Resource parsed from an empty JSON object fetched at the root. -/
def resRootParsed : Resource :=
  { path := "/redfish/v1", odataID := "", odataType := ""
    rawJSON := Json.obj [], properties := [], children := [] }

/-- C3 witness: the fetch discipline at the concrete root path, from the
empty online cache: one fetch on the miss, none on the following hit,
one again after `Invalidate`. -/
theorem C3_cache_get_fetch_discipline_witness :
    ResourceCache.Get fetchRootObj (ResourceCache.mk [] false) "/redfish/v1" =
      (Except.ok resRootParsed,
       ResourceCache.mk [("/redfish/v1", resRootParsed)] false,
       ["/redfish/v1"]) ∧
    ResourceCache.Get fetchRootObj
        (ResourceCache.mk [("/redfish/v1", resRootParsed)] false)
        "/redfish/v1" =
      (Except.ok resRootParsed,
       ResourceCache.mk [("/redfish/v1", resRootParsed)] false, []) ∧
    (ResourceCache.Get fetchRootObj
      (ResourceCache.Invalidate
        (ResourceCache.mk [("/redfish/v1", resRootParsed)] false)
        "/redfish/v1") "/redfish/v1").2.2 = ["/redfish/v1"] := by
  obtain ⟨-, -, h₃, h₄⟩ :=
    C3_cache_get_fetch_discipline fetchRootObj (ResourceCache.mk [] false)
      "/redfish/v1"
  obtain ⟨h₃₁, h₃₂⟩ := h₃ (Json.obj []) resRootParsed rfl rfl rfl rfl
  exact ⟨h₃₁, h₃₂, h₄ (by decide) rfl resRootParsed⟩

/-! ## C8 — failed `Get` leaves the cache unchanged -/

/-- C8: when the fetch or the parse fails, `Get` returns that error with
the store untouched and exactly one fetch issued — the state being
literally the input state, the immediately following `Get` of the same
path repeats the very same fresh fetch; and every erroring `Get`, of
whatever cause, leaves the cache state unchanged. -/
theorem C8_get_error_atomic (fetch : FetchEnv) (c : ResourceCache)
    (path : String) :
    (∀ e, AList.lookup c.store (normalizePath path) = none →
      c.offline = false →
      fetch (normalizePath path) = Except.error e →
      ResourceCache.Get fetch c path =
        (Except.error e, c, [normalizePath path])) ∧
    (∀ data e, AList.lookup c.store (normalizePath path) = none →
      c.offline = false →
      fetch (normalizePath path) = Except.ok data →
      Parse (normalizePath path) data = Except.error e →
      ResourceCache.Get fetch c path =
        (Except.error e, c, [normalizePath path])) ∧
    (∀ e, (ResourceCache.Get fetch c path).1 = Except.error e →
      (ResourceCache.Get fetch c path).2.1 = c) := by
  refine ⟨?_, ?_, ?_⟩
  · intro e hl hoff hf
    simp [ResourceCache.Get, hl, hoff, hf]
  · intro data e hl hoff hf hp
    simp [ResourceCache.Get, hl, hoff, hf, hp]
  · intro e herr
    cases hl : AList.lookup c.store (normalizePath path) with
    | some r₀ => simp [ResourceCache.Get, hl]
    | none =>
      by_cases hoff : c.offline
      · simp [ResourceCache.Get, hl, hoff]
      · cases hf : fetch (normalizePath path) with
        | error e₂ => simp [ResourceCache.Get, hl, hoff, hf]
        | ok data =>
          cases hp : Parse (normalizePath path) data with
          | error e₂ => simp [ResourceCache.Get, hl, hoff, hf, hp]
          | ok r => simp [ResourceCache.Get, hl, hoff, hf, hp] at herr

/-- Environment whose root document is not a JSON object, making the
parse step fail. -/
def fetchBadDoc : FetchEnv := fun _ => Except.ok (Json.str "nope")

/-- C8 witness: a transport failure and a parse failure at the concrete
root path each surface the error, leave the empty cache empty, and issue
exactly one fetch. -/
theorem C8_get_error_atomic_witness :
    ResourceCache.Get fetchNone (ResourceCache.mk [] false) "/redfish/v1" =
      (Except.error (RErr.network "/redfish/v1"),
       ResourceCache.mk [] false, ["/redfish/v1"]) ∧
    ResourceCache.Get fetchBadDoc (ResourceCache.mk [] false) "/redfish/v1" =
      (Except.error (RErr.parseErr "/redfish/v1"),
       ResourceCache.mk [] false, ["/redfish/v1"]) := by
  obtain ⟨h₁, -, -⟩ :=
    C8_get_error_atomic fetchNone (ResourceCache.mk [] false) "/redfish/v1"
  obtain ⟨-, h₂, -⟩ :=
    C8_get_error_atomic fetchBadDoc (ResourceCache.mk [] false) "/redfish/v1"
  exact ⟨h₁ (RErr.network "/redfish/v1") rfl rfl rfl,
         h₂ (Json.str "nope") (RErr.parseErr "/redfish/v1") rfl rfl rfl rfl⟩

/-! ## C4 — tail links are returned without fetching their target -/

/-- C4: a `Link` property reached at the last segment is returned as
`Target{kind: Link, resource: containing resource, property: prop,
resourcePath: prop.linkTarget}` with no `cache.Get` issued at all in
that step — both in property mode and in resource mode after a child
miss on a loaded resource, while an unloaded resource costs exactly the
one `cache.Get` of the containing resource's path, never of the link
target; and with at least one more segment the link is followed: the
walk continues from the link target in resource mode and its very next
`cache.Get` is of `prop.linkTarget`. -/
theorem C4_tail_link_is_lazy :
    (∀ (env : CacheEnv) (path : String) (r? : Option Resource)
        (props : List (String × Property)) (seg : String) (prop : Property),
      navigatePropertySegment props seg = Except.ok prop →
      prop.ptype = PropertyType.link →
      resolveLoop env path r? (some props) [seg] =
        (Except.ok (Target.mk TargetType.link r? (some prop)
          prop.linkTarget), [])) ∧
    (∀ (env : CacheEnv) (path : String) (res : Resource) (seg : String)
        (prop : Property),
      AList.lookup res.children seg = none →
      navigatePropertySegment res.properties seg = Except.ok prop →
      prop.ptype = PropertyType.link →
      resolveLoop env path (some res) none [seg] =
        (Except.ok (Target.mk TargetType.link (some res) (some prop)
          prop.linkTarget), [])) ∧
    (∀ (env : CacheEnv) (path : String) (res : Resource) (seg : String)
        (prop : Property),
      env path = Except.ok res →
      AList.lookup res.children seg = none →
      navigatePropertySegment res.properties seg = Except.ok prop →
      prop.ptype = PropertyType.link →
      resolveLoop env path none none [seg] =
        (Except.ok (Target.mk TargetType.link (some res) (some prop)
          prop.linkTarget), [path])) ∧
    (∀ (env : CacheEnv) (path : String) (r? : Option Resource)
        (props : List (String × Property)) (seg s : String)
        (rest : List String) (prop : Property),
      navigatePropertySegment props seg = Except.ok prop →
      prop.ptype = PropertyType.link →
      resolveLoop env path r? (some props) (seg :: s :: rest) =
        resolveLoop env prop.linkTarget none none (s :: rest) ∧
      (resolveLoop env prop.linkTarget none none (s :: rest)).2.head? =
        some prop.linkTarget) := by
  refine ⟨?_, ?_, ?_, ?_⟩
  · intro env path r? props seg prop hnav hlink
    simp [resolveLoop, hnav, hlink]
  · intro env path res seg prop hchild hnav hlink
    simp [resolveLoop, hchild, hnav, hlink]
  · intro env path res seg prop henv hchild hnav hlink
    simp [resolveLoop, henv, hchild, hnav, hlink]
  · intro env path r? props seg s rest prop hnav hlink
    constructor
    · simp [resolveLoop, hnav, hlink]
    · cases he : env prop.linkTarget with
      | error e => simp [resolveLoop, he]
      | ok res => simp [resolveLoop, he]

/-- Link property fixture pointing at the chassis. -/
def chassisLink : Property :=
  Property.mk "[0]" PropertyType.link none "/redfish/v1/Chassis/1" [] []

/-- Property map holding the link fixture under the key `L`. -/
def propsLink : List (String × Property) := [("L", chassisLink)]

/-- System resource fixture whose properties hold the link fixture and
whose children are empty. -/
def resSystem : Resource :=
  { path := "/redfish/v1/Systems/1", odataID := "/redfish/v1/Systems/1"
    odataType := "", rawJSON := Json.obj [], properties := propsLink
    children := [] }

/-- Cache environment with no resources at all: every `Get` fails, so a
resolution that succeeds provably issued none. -/
def envNothing : CacheEnv := fun p => Except.error (RErr.notFound p)

/-- Cache environment serving exactly the system fixture; in particular
the link target `/redfish/v1/Chassis/1` is unavailable. -/
def envSystemOnly : CacheEnv := fun p =>
  if p = "/redfish/v1/Systems/1" then Except.ok resSystem
  else Except.error (RErr.notFound p)

/-- C4 witness: at the tail, the link resolves with an empty fetch trace
even under an environment where every fetch fails; with one more
segment, the walk equals the continuation from the link target, whose
first fetch is of the link target. -/
theorem C4_tail_link_is_lazy_witness :
    resolveLoop envNothing "/redfish/v1/Systems/1" (some resSystem)
        (some propsLink) ["L"] =
      (Except.ok (Target.mk TargetType.link (some resSystem)
        (some chassisLink) "/redfish/v1/Chassis/1"), []) ∧
    resolveLoop envNothing "/redfish/v1/Systems/1" (some resSystem) none
        ["L"] =
      (Except.ok (Target.mk TargetType.link (some resSystem)
        (some chassisLink) "/redfish/v1/Chassis/1"), []) ∧
    resolveLoop envSystemOnly "/redfish/v1/Systems/1" none none ["L"] =
      (Except.ok (Target.mk TargetType.link (some resSystem)
        (some chassisLink) "/redfish/v1/Chassis/1"),
       ["/redfish/v1/Systems/1"]) ∧
    resolveLoop envNothing "/redfish/v1/Systems/1" (some resSystem)
        (some propsLink) ["L", "Manufacturer"] =
      resolveLoop envNothing "/redfish/v1/Chassis/1" none none
        ["Manufacturer"] ∧
    (resolveLoop envNothing "/redfish/v1/Chassis/1" none none
        ["Manufacturer"]).2.head? = some "/redfish/v1/Chassis/1" := by
  obtain ⟨h₁, h₂, h₂u, h₃⟩ := C4_tail_link_is_lazy
  obtain ⟨h₃₁, h₃₂⟩ := h₃ envNothing "/redfish/v1/Systems/1" (some resSystem)
    propsLink "L" "Manufacturer" [] chassisLink rfl rfl
  exact ⟨h₁ envNothing "/redfish/v1/Systems/1" (some resSystem) propsLink "L"
      chassisLink rfl rfl,
    h₂ envNothing "/redfish/v1/Systems/1" resSystem "L" chassisLink rfl rfl
      rfl,
    h₂u envSystemOnly "/redfish/v1/Systems/1" resSystem "L" chassisLink rfl
      rfl rfl rfl,
    h₃₁, h₃₂⟩

/-! ## C9 — one login retry and one re-issue on 401 -/

/-- C9: on a 401, `Fetch` performs exactly one login retry and re-issues
the GET exactly once — a failed login or a second 401 surfaces as
`HTTPError` with status 401, a non-200 second status surfaces as
`HTTPError` with that status — and in every outcome the client issues at
most one login POST and at most two GETs (never more requests than the
original, one login, one re-issue). The same holds for `Post`, with the
spec-modelled `Client.Post` surfacing only a second 401 as `HTTPError`.
The path is assumed to start with `/`, as every path the cache hands
over does. -/
theorem C9_fetch_post_single_retry_on_401 :
    (∀ (transport : Transport) (c : Client) (path : String)
        (resp : HttpResponse),
      path.toList.head? = some '/' →
      transport (fetchRequest c path) = Except.ok resp →
      resp.status = 401 →
      ((∀ e, Client.Login transport c = Except.error e →
        Client.Fetch transport c path =
          (Except.error (RErr.httpErr path 401),
           [fetchRequest c path, loginRequest c])) ∧
       (∀ c₂ resp₂, Client.Login transport c = Except.ok c₂ →
        transport (fetchRequest c₂ path) = Except.ok resp₂ →
        resp₂.status = 401 →
        Client.Fetch transport c path =
          (Except.error (RErr.httpErr path 401),
           [fetchRequest c path, loginRequest c, fetchRequest c₂ path])) ∧
       (∀ c₂ resp₂, Client.Login transport c = Except.ok c₂ →
        transport (fetchRequest c₂ path) = Except.ok resp₂ →
        resp₂.status = 200 →
        Client.Fetch transport c path =
          (Except.ok (resp₂.body, c₂),
           [fetchRequest c path, loginRequest c, fetchRequest c₂ path])))) ∧
    (∀ (transport : Transport) (c : Client) (path : String),
      (Client.Fetch transport c path).2.countP
          (fun r => r.method == "POST") ≤ 1 ∧
      (Client.Fetch transport c path).2.countP
          (fun r => r.method == "GET") ≤ 2) ∧
    (∀ (transport : Transport) (c : Client) (path body : String)
        (resp : HttpResponse),
      transport (postRequest c path body) = Except.ok resp →
      resp.status = 401 →
      ((∀ e, Client.Login transport c = Except.error e →
        Client.Post transport c path body =
          (Except.error (RErr.httpErr path 401),
           [postRequest c path body, loginRequest c])) ∧
       (∀ c₂ resp₂, Client.Login transport c = Except.ok c₂ →
        transport (postRequest c₂ path body) = Except.ok resp₂ →
        resp₂.status = 401 →
        Client.Post transport c path body =
          (Except.error (RErr.httpErr path 401),
           [postRequest c path body, loginRequest c,
            postRequest c₂ path body])))) := by
  refine ⟨?_, ?_, ?_⟩
  · intro transport c path resp hhead htr h401
    have hhead₂ : path.data.head? = some '/' := hhead
    have hnorm : fetchPathNorm path '/' = path := rfl
    refine ⟨?_, ?_, ?_⟩
    · intro e hlog
      simp [Client.Fetch, hhead, hhead₂, hnorm, htr, h401, hlog]
    · intro c₂ resp₂ hlog htr₂ h401₂
      simp [Client.Fetch, hhead, hhead₂, hnorm, htr, h401, hlog, htr₂, h401₂]
    · intro c₂ resp₂ hlog htr₂ h200
      simp [Client.Fetch, hhead, hhead₂, hnorm, htr, h401, hlog, htr₂, h200]
  · intro transport c path
    cases hh : path.toList.head? with
    | none =>
      have hh₂ : path.data.head? = none := hh
      simp [Client.Fetch, hh, hh₂]
    | some ch =>
      have hh₂ : path.data.head? = some ch := hh
      cases htr : transport (fetchRequest c (fetchPathNorm path ch)) with
      | error e =>
        simp only [Client.Fetch, hh, hh₂, htr]
        simp [List.countP_cons, List.countP_nil, fetchRequest, loginRequest]
      | ok resp =>
        by_cases h401 : resp.status = 401
        · cases hlog : Client.Login transport c with
          | error e =>
            simp only [Client.Fetch, hh, hh₂, htr, h401, hlog]
            simp [List.countP_cons, List.countP_nil, fetchRequest,
              loginRequest]
          | ok c₂ =>
            cases htr₂ : transport (fetchRequest c₂ (fetchPathNorm path ch))
              with
            | error e =>
              simp only [Client.Fetch, hh, hh₂, htr, h401, hlog, htr₂]
              simp [List.countP_cons, List.countP_nil, fetchRequest,
                loginRequest]
            | ok resp₂ =>
              by_cases h200 : resp₂.status = 200 <;>
              · simp only [Client.Fetch, hh, hh₂, htr, h401, hlog, htr₂, h200]
                simp [List.countP_cons, List.countP_nil, fetchRequest,
                  loginRequest, h200]
        · by_cases h200 : resp.status = 200 <;>
          · simp only [Client.Fetch, hh, hh₂, htr, h401, h200]
            simp [List.countP_cons, List.countP_nil, fetchRequest,
              loginRequest, h401, h200]
  · intro transport c path body resp htr h401
    refine ⟨?_, ?_⟩
    · intro e hlog
      simp [Client.Post, htr, h401, hlog]
    · intro c₂ resp₂ hlog htr₂ h401₂
      simp [Client.Post, htr, h401, hlog, htr₂, h401₂]

/-- Transport fixture: every GET answers 401; the login POST succeeds
with a fresh token; a POST to a non-session URL answers 401 as well. -/
def transport401 : Transport := fun req =>
  if req.method = "POST" ∧ req.body ≠ ReqBody.raw "b" then
    Except.ok (HttpResponse.mk 201 "tok2" "" "")
  else Except.ok (HttpResponse.mk 401 "" "" "")

/-- Client fixture holding an expired token. -/
def clientStale : Client :=
  { endpoint := "https://bmc", token := "tok", username := "u"
    password := "p" }

/-- Client fixture after the re-login performed by the retry. -/
def clientFresh : Client :=
  { endpoint := "https://bmc", token := "tok2", username := "u"
    password := "p" }

/-- C9 witness: under a transport that answers 401 to every data request
and renews the session on login, `Fetch` and the spec-modelled `Post`
each issue exactly the original request, one login, and one re-issue,
then fail with `HTTPError 401`; the request-count bounds hold on the
same run. -/
theorem C9_fetch_post_single_retry_on_401_witness :
    Client.Fetch transport401 clientStale "/x" =
      (Except.error (RErr.httpErr "/x" 401),
       [fetchRequest clientStale "/x", loginRequest clientStale,
        fetchRequest clientFresh "/x"]) ∧
    Client.Post transport401 clientStale "/x" "b" =
      (Except.error (RErr.httpErr "/x" 401),
       [postRequest clientStale "/x" "b", loginRequest clientStale,
        postRequest clientFresh "/x" "b"]) ∧
    (Client.Fetch transport401 clientStale "/x").2.countP
        (fun r => r.method == "POST") ≤ 1 ∧
    (Client.Fetch transport401 clientStale "/x").2.countP
        (fun r => r.method == "GET") ≤ 2 := by
  obtain ⟨hfetch, hcount, hpost⟩ := C9_fetch_post_single_retry_on_401
  obtain ⟨-, hf401, -⟩ := hfetch transport401 clientStale "/x"
    (HttpResponse.mk 401 "" "" "") rfl rfl rfl
  obtain ⟨-, hp401⟩ := hpost transport401 clientStale "/x" "b"
    (HttpResponse.mk 401 "" "" "") rfl rfl
  obtain ⟨hc₁, hc₂⟩ := hcount transport401 clientStale "/x"
  exact ⟨hf401 clientFresh (HttpResponse.mk 401 "" "" "") rfl rfl rfl,
         hp401 clientFresh (HttpResponse.mk 401 "" "" "") rfl rfl rfl,
         hc₁, hc₂⟩

end Rvfs
